import Mathlib

/-!
Shallow embedding of `diff-lint.py` (the annotating diff state machine) and
proofs about its specification.  Python strings are modelled as `List Char`,
Python dicts of line number to list of messages as association lists, and the
mutable-dispatch state machine as a step function on an explicit machine
state.  Fallible steps (Python `assert` failures and `IndexError`) are
modelled with `Except`.
-/

namespace DiffLint

/-- One line of text, modelled as its list of characters (a Python `str`). -/
abbrev Line : Type := List Char

/-- The ANSI escape character `\x1b`. -/
def escChar : Char := Char.ofNat 27

/-- `"\x1b[3"`, the three-character start-of-color marker counted by `two_pane`. -/
def colorStartMarker : Line := [escChar, '[', '3']

/-- `"\x1b[m"`, the reset-color marker counted by `two_pane`. -/
def colorResetMarker : Line := [escChar, '[', 'm']

/-- `"\x1b[31m-"`, the six-character prefix marking a removed (red `-`) diff
line, compared by `code_lines` against `line[:6]`. -/
def redMinus : Line := [escChar, '[', '3', '1', 'm', '-']

/-- Fueled worker for `count`.  Fuel `s.length` always suffices because every
recursive call strictly shortens the scanned list. -/
def countAux : Nat → List Char → List Char → Nat
  | 0, _, _ => 0
  | fuel + 1, s, needle =>
    match s with
    | [] => 0
    | c :: rest =>
      if needle ≠ [] ∧ needle.isPrefixOf (c :: rest) then
        1 + countAux fuel ((c :: rest).drop needle.length) needle
      else
        countAux fuel rest needle

/-- Python `s.count(needle)`: the number of non-overlapping occurrences of
`needle` in `s`, scanning left to right.  (The three needles the program
counts, `"\x1b[3"`, `"\x1b[m"` and `"\t"`, cannot overlap themselves, so for
them this also equals the number of positions where `needle` occurs.) -/
def count (s needle : List Char) : Nat := countAux s.length s needle

/-- Python `s.ljust(width)`, where the target width may be negative (the
padding adjustment in `two_pane` is subtracted for tabs). -/
def ljust (s : Line) (width : Int) : Line :=
  if (s.length : Int) < width then
    s ++ List.replicate (width - s.length).toNat ' '
  else s

/-- The keys of the `COLORS` dict.  Only mapped severities exist, so
`COLORS[color]` is total here (an unmapped key would be a Python `KeyError`,
which no call site of the program can produce). -/
inductive ColorName
  | cyan
  | green
  | red
  | yellow
deriving DecidableEq

/-- The `COLORS` dict of the source. -/
def COLORS : ColorName → Nat
  | .cyan => 36
  | .green => 32
  | .red => 31
  | .yellow => 33

/-- Decimal digits of `n`, least-significant last: the `%d` formatting used
by `color_block`. -/
def natDigitsAux : Nat → Nat → List Char
  | 0, _ => []
  | fuel + 1, n =>
    if n < 10 then [Char.ofNat (48 + n)]
    else natDigitsAux fuel (n / 10) ++ [Char.ofNat (48 + n % 10)]

/-- Decimal representation of a natural number, as in Python `'%d' % n`. -/
def natToChars (n : Nat) : List Char := natDigitsAux (n + 1) n

/-- `color_block(text, color)` of the source: `'\x1b[%dm%s\x1b[m' % (color, text)`. -/
def color_block (text : Line) (color : Nat) : Line :=
  escChar :: '[' :: (natToChars color ++ 'm' :: (text ++ [escChar, '[', 'm']))

/-- `two_pane(text, msg, color)` of the source: pad the first 70 characters
of `text` to 80 columns plus an adjustment for invisible characters counted
over the whole of `text`, then a space, then the colored message. -/
def two_pane (text msg : Line) (color : ColorName) : Line :=
  let padding : Int :=
    5 * (count text colorStartMarker : Int)
      + 3 * (count text colorResetMarker : Int)
      - 6 * (count text ['\t'] : Int)
  ljust (text.take 70) (80 + padding) ++ (' ' :: color_block msg (COLORS color))

/-- `warning_line(text, warning)` of the source: a yellow two-pane line. -/
def warning_line (text warning : Line) : Line := two_pane text warning .yellow

/-- `error_line(text, error)` of the source: a red two-pane line. -/
def error_line (text e : Line) : Line := two_pane text e .red

/-- The Line Formatter as the spec words it (§4.2): truncate the text to its
first 70 raw characters, pad to a total width of 80 plus an adjustment (+5
per start-color marker, +3 per reset-color marker, −6 per tab, all counted
over the full original text), append a single space, then the message wrapped
`ESC[<code>m … ESC[m` in the severity's color. -/
def two_pane_from_spec (text msg : Line) (color : ColorName) : Line :=
  let adjustment : Int :=
    5 * (count text colorStartMarker : Int)
      + 3 * (count text colorResetMarker : Int)
      - 6 * (count text ['\t'] : Int)
  let clipped := text.take 70
  let padCount : Nat := (80 + adjustment - clipped.length).toNat
  clipped ++ List.replicate padCount ' '
    ++ [' ']
    ++ (escChar :: '[' :: natToChars (COLORS color))
    ++ ['m'] ++ msg ++ [escChar, '[', 'm']

/-- Python `text.split('\n')` (on a `List Char`): always ends with the part
after the last newline, so splitting the empty text yields `[[]]`. -/
def splitNl : List Char → List Line
  | [] => [[]]
  | c :: rest =>
    if c = '\n' then [] :: splitNl rest
    else
      match splitNl rest with
      | [] => [[c]]
      | l :: ls => (c :: l) :: ls

/-- Value of a nonempty ASCII digit run, as Python `int()` on the matched
group. -/
def digitsToNat (ds : List Char) : Nat :=
  ds.foldl (fun n c => 10 * n + (c.toNat - 48)) 0

/-- `re.search(':(\d+):', s)`: scan left to right for a `:`, a nonempty digit
run, and another `:`; return the value of the first such digit run.  (`\d` is
modelled as the ASCII digits.) -/
def findLineNo : List Char → Option Nat
  | [] => none
  | c :: rest =>
    if c = ':' then
      match rest.takeWhile Char.isDigit with
      | [] => findLineNo rest
      | ds =>
        match rest.drop ds.length with
        | ':' :: _ => some (digitsToNat ds)
        | _ => findLineNo rest
    else findLineNo rest

/-- Consume a literal prefix, or fail. -/
def dropLit (pre s : Line) : Option Line :=
  if pre.isPrefixOf s then some (s.drop pre.length) else none

/-- Consume a nonempty run of ASCII digits, returning its value and the rest. -/
def dropDigits (s : Line) : Option (Nat × Line) :=
  match s.takeWhile Char.isDigit with
  | [] => none
  | ds => some (digitsToNat ds, s.drop ds.length)

/-- End-of-pattern check for `.{3}$`: three non-newline characters followed
by the end of the string, or (as `$` allows in Python) by one final newline. -/
def headerTailOk (r : Line) : Bool :=
  (r.length == 3 && r.all (fun c => c != '\n'))
    || (r.length == 4 && (r.take 3).all (fun c => c != '\n') && r.drop 3 == ['\n'])

/-- `re.match` of `HEADER_PARSER = '^.{5}@@ -\d+,\d+ \+(\d+),\d+ @@.{3}$'`,
returning the captured `+`-side start line number.  The pattern is
deterministic (each greedy `\d+` is followed by a non-digit literal), so a
straight-line parser is an exact model; `\d` is modelled as ASCII digits. -/
def parseHeader (s : Line) : Option Nat :=
  if (s.take 5).length == 5 && (s.take 5).all (fun c => c != '\n') then
    (dropLit ['@', '@', ' ', '-'] (s.drop 5)).bind fun r1 =>
    (dropDigits r1).bind fun p1 =>
    (dropLit [','] p1.2).bind fun r2 =>
    (dropDigits r2).bind fun p2 =>
    (dropLit [' ', '+'] p2.2).bind fun r3 =>
    (dropDigits r3).bind fun p3 =>
    (dropLit [','] p3.2).bind fun r4 =>
    (dropDigits r4).bind fun p4 =>
    (dropLit [' ', '@', '@'] p4.2).bind fun r5 =>
    if headerTailOk r5 then some p3.1 else none
  else none

/-- A Finding Store: a Python dict from source line number to the (mutable)
list of messages for that line, as an association list.  Keys are unique by
construction (`storePush` never duplicates a key). -/
abbrev Store : Type := List (Nat × List Line)

/-- Python `store.get(k, [])`. -/
def storeGet : Store → Nat → List Line
  | [], _ => []
  | (k', v) :: rest, k => if k' = k then v else storeGet rest k

/-- Python `store[k].pop(0)`, as the store after the pop (only ever called
when `storeGet store k` is nonempty). -/
def storePopFront : Store → Nat → Store
  | [], _ => []
  | (k', v) :: rest, k =>
    if k' = k then (k', v.tail) :: rest else (k', v) :: storePopFront rest k

/-- Python `store.setdefault(k, []).append(msg)`. -/
def storePush : Store → Nat → Line → Store
  | [], k, msg => [(k, [msg])]
  | (k', v) :: rest, k, msg =>
    if k' = k then (k', v ++ [msg]) :: rest else (k', v) :: storePush rest k msg

/-- Total number of findings held in a store. -/
def storeTotal (s : Store) : Nat := (s.map (fun kv => kv.2.length)).sum

/-- Worker of `parse_output`: fold the split lines into a store, failing on
the first non-empty line without a `:<digits>:` match (the `assert`). -/
def parse_output_go : List Line → Store → Except Line Store
  | [], acc => .ok acc
  | l :: ls, acc =>
    if l = [] then parse_output_go ls acc
    else
      match findLineNo l with
      | none => .error l
      | some n => parse_output_go ls (storePush acc n l)

/-- `parse_output` of the source: split the checker output on newlines, skip
empty lines, and require each remaining line to contain `:<digits>:`; the
whole raw line is stored as the message for the parsed line number.  A line
without the pattern is the failed `assert`, returned as `.error` carrying the
offending line. -/
def parse_output (output : List Char) : Except Line Store :=
  parse_output_go (splitNl output) []

/-- The argv built by `diff_output` for `subprocess.check_output`.  As in the
source, the `ref` parameter is accepted but does not appear in the command. -/
def diff_output_argv (filename ref : Line) : List Line :=
  ["git".toList, "diff".toList, "--color".toList, filename]

/-- The default of the `-r` (long form `--ref`) CLI option (`args` in the
source). -/
def args_default_ref : Line := "HEAD".toList

/-- The dispatch states of `DiffStateMachine` (the possible values of the
mutable `self.state` method pointer). -/
inductive Tag
  | diffTop
  | header
  | codeLines
  | continueMsgs
deriving DecidableEq

/-- Errors a pull of the state machine can raise: `IndexError` from
`self.diff_lines[self.diff_line]`, the failed `assert parsed` of `header`,
and the out-of-fuel marker of the fueled `run` (never produced by `step`). -/
inductive Err
  | indexErr
  | headerAssert
  | fuelOut
deriving DecidableEq

/-- The fields of `DiffStateMachine`. -/
structure Machine where
  diffLines : List Line
  diffLine : Nat
  codeLine : Nat
  pep8 : Store
  pyflakes : Store
  state : Tag
deriving DecidableEq

/-- `DiffStateMachine.__init__(diff_lines, pep8, pyflakes)`. -/
def init (diffLines : List Line) (pep8 pyflakes : Store) : Machine :=
  ⟨diffLines, 0, 0, pep8, pyflakes, .diffTop⟩

/-- `DiffStateMachine.diff_top`: emit the current line verbatim, switching
the dispatch pointer to `header` when the line being consumed is the one at
index 3 (so that line itself is still emitted here). -/
def diff_top (m : Machine) : Except Err (Line × Machine) :=
  match List.get? m.diffLines m.diffLine with
  | none => .error .indexErr
  | some line =>
    if m.diffLine = 3 then
      .ok (line, { m with state := .header, diffLine := m.diffLine + 1 })
    else
      .ok (line, { m with diffLine := m.diffLine + 1 })

/-- `DiffStateMachine.header`: parse the current line against the hunk-header
pattern (`assert parsed` on failure), seed the cursor `code_line` from the
captured `+`-side start, emit the line verbatim, and move to `code_lines`. -/
def header (m : Machine) : Except Err (Line × Machine) :=
  match List.get? m.diffLines m.diffLine with
  | none => .error .indexErr
  | some line =>
    match parseHeader line with
    | none => .error .headerAssert
    | some n =>
      .ok (line, { m with codeLine := n, state := .codeLines, diffLine := m.diffLine + 1 })

/-- `DiffStateMachine.code_lines`: a removed line (six-character red `-`
prefix) is emitted verbatim advancing only the raw pointer; otherwise a
pending pyflakes finding (then a pending pep8 finding) at the cursor is
popped and emitted as a two-pane line built from the current content line,
moving to `continue_msgs`; otherwise the content line is emitted verbatim and
both the raw pointer and the cursor advance. -/
def code_lines (m : Machine) : Except Err (Line × Machine) :=
  match List.get? m.diffLines m.diffLine with
  | none => .error .indexErr
  | some line =>
    if line.take 6 = redMinus then
      .ok (line, { m with diffLine := m.diffLine + 1 })
    else
      match storeGet m.pyflakes m.codeLine with
      | msg :: _ =>
        .ok (error_line line msg,
          { m with state := .continueMsgs, pyflakes := storePopFront m.pyflakes m.codeLine })
      | [] =>
        match storeGet m.pep8 m.codeLine with
        | msg :: _ =>
          .ok (warning_line line msg,
            { m with state := .continueMsgs, pep8 := storePopFront m.pep8 m.codeLine })
        | [] =>
          .ok (line, { m with diffLine := m.diffLine + 1, codeLine := m.codeLine + 1 })

/-- `DiffStateMachine.continue_msgs`: pop and emit a remaining pyflakes (then
pep8) finding at the cursor as a bare annotation (empty text pane); when none
remain, advance both the raw pointer and the cursor, switch back to
`code_lines`, and immediately run it on the same pull. -/
def continue_msgs (m : Machine) : Except Err (Line × Machine) :=
  match storeGet m.pyflakes m.codeLine with
  | msg :: _ =>
    .ok (error_line [] msg, { m with pyflakes := storePopFront m.pyflakes m.codeLine })
  | [] =>
    match storeGet m.pep8 m.codeLine with
    | msg :: _ =>
      .ok (warning_line [] msg, { m with pep8 := storePopFront m.pep8 m.codeLine })
    | [] =>
      code_lines { m with diffLine := m.diffLine + 1, codeLine := m.codeLine + 1, state := .codeLines }

/-- One pull of the iterator: call the method the dispatch field points at. -/
def step (m : Machine) : Except Err (Line × Machine) :=
  match m.state with
  | .diffTop => diff_top m
  | .header => header m
  | .codeLines => code_lines m
  | .continueMsgs => continue_msgs m

/-- `n` consecutive pulls, with the produced lines and the final state. -/
def stepsN : Nat → Machine → Except Err (List Line × Machine)
  | 0, m => .ok ([], m)
  | n + 1, m =>
    match step m with
    | .error e => .error e
    | .ok (out, m') =>
      match stepsN n m' with
      | .error e => .error e
      | .ok (outs, mf) => .ok (out :: outs, mf)

/-- `DiffStateMachine.__iter__`: pull while the raw pointer is inside the
line list.  Structurally fueled; `.error .fuelOut` is only reachable when the
fuel is smaller than the number of pulls the loop performs (see `meas`). -/
def run : Nat → Machine → Except Err (List Line × Machine)
  | 0, m =>
    if m.diffLine < m.diffLines.length then .error .fuelOut else .ok ([], m)
  | fuel + 1, m =>
    if m.diffLine < m.diffLines.length then
      match step m with
      | .error e => .error e
      | .ok (out, m') =>
        match run fuel m' with
        | .error e => .error e
        | .ok (outs, mf) => .ok (out :: outs, mf)
    else .ok ([], m)

/-- Termination measure: remaining diff lines plus remaining findings.
Every successful pull strictly decreases it. -/
def meas (m : Machine) : Nat :=
  (m.diffLines.length - m.diffLine) + (storeTotal m.pyflakes + storeTotal m.pep8)

end DiffLint

namespace DiffLint

/-! ## Store lemmas -/

theorem storeGet_popFront_self (s : Store) (k : Nat) :
    storeGet (storePopFront s k) k = (storeGet s k).tail := by
  induction s with
  | nil => rfl
  | cons kv rest ih =>
    obtain ⟨k', v⟩ := kv
    by_cases h : k' = k
    · simp [storePopFront, storeGet, h]
    · simp [storePopFront, storeGet, h, ih]

theorem storeGet_popFront_ne (s : Store) (j k : Nat) (h : j ≠ k) :
    storeGet (storePopFront s k) j = storeGet s j := by
  induction s with
  | nil => rfl
  | cons kv rest ih =>
    obtain ⟨k', v⟩ := kv
    by_cases h' : k' = k
    · subst h'
      simp [storePopFront, storeGet, Ne.symm h]
    · by_cases h'' : k' = j
      · simp [storePopFront, storeGet, h', h'', h]
      · simp [storePopFront, storeGet, h', h'', ih]

theorem storeTotal_popFront (s : Store) (k : Nat) (v : Line) (vs : List Line)
    (h : storeGet s k = v :: vs) :
    storeTotal (storePopFront s k) + 1 = storeTotal s := by
  induction s with
  | nil => simp [storeGet] at h
  | cons kv rest ih =>
    obtain ⟨k', w⟩ := kv
    by_cases hk : k' = k
    · simp only [storeGet, if_pos hk] at h
      subst h
      simp [storePopFront, hk, storeTotal]
      omega
    · simp only [storeGet, if_neg hk] at h
      have ih' := ih h
      simp [storePopFront, hk, storeTotal] at ih' ⊢
      omega

/-! ## Elementary facts about `run` -/

theorem run_done (fuel : Nat) (m : Machine) (h : ¬ m.diffLine < m.diffLines.length) :
    run fuel m = .ok ([], m) := by
  cases fuel <;> simp [run, h]

theorem run_succ_of_step (fuel : Nat) (m m' : Machine) (out : Line)
    (hd : m.diffLine < m.diffLines.length) (hs : step m = .ok (out, m')) :
    run (fuel + 1) m = (run fuel m').map (fun p => (out :: p.1, p.2)) := by
  simp only [run, if_pos hd, hs]
  cases h : run fuel m' <;> simp [Except.map]

end DiffLint

namespace DiffLint

/-- Claim C6: for every text line and message, the formatter truncates the
text to its first 70 raw characters, left-justifies it to width 80 plus a
padding adjustment computed over the full original text (+5 per occurrence
of the 3-character start-color marker, +3 per reset-color marker, −6 per
literal tab), appends a single space and the message wrapped
`ESC[<code>m … ESC[m` in the severity's color; formatting is total over any
string input given a mapped severity: `two_pane` coincides with the
formatter the spec describes on every input. -/
theorem c6_formatter_spec (text msg : Line) (c : ColorName) :
    two_pane text msg c = two_pane_from_spec text msg c := by
  unfold two_pane two_pane_from_spec ljust color_block
  by_cases h : (((text.take 70).length : Int) <
      80 + (5 * (count text colorStartMarker : Int)
        + 3 * (count text colorResetMarker : Int)
        - 6 * (count text ['\t'] : Int)))
  · simp only [if_pos h, List.append_assoc, List.cons_append, List.singleton_append,
      List.nil_append]
  · simp only [if_neg h]
    have h0 : (80 + (5 * (count text colorStartMarker : Int)
        + 3 * (count text colorResetMarker : Int)
        - 6 * (count text ['\t'] : Int)) - ((text.take 70).length : Int)).toNat = 0 := by
      omega
    simp only [h0, List.replicate_zero, List.append_nil, List.append_assoc,
      List.cons_append, List.singleton_append, List.nil_append]

end DiffLint

namespace DiffLint

/-- Claim C8: the spec says the diff provider is invoked with both the target
filename and the `-r` reference, so the diff text depends on the ref.  The
code contradicts this (and its own CLI help): `diff_output` accepts `ref` but
builds `['git', 'diff', '--color', filename]` without it, so the command —
hence the diff text obtained — is independent of the ref argument. -/
theorem c8_ref_unused (filename ref1 ref2 : Line) :
    diff_output_argv filename ref1 = diff_output_argv filename ref2 := rfl

/-- The six diff lines of the out-of-bounds scenario: a last content line
whose cursor line still has a pending finding. -/
def c9Lines : List Line :=
  ["p0".toList, "p1".toList, "p2".toList, "p3".toList,
   "FGHIJ@@ -2,2 +5,2 @@QRS".toList, "y = 2".toList]

/-- The machine of the out-of-bounds scenario: one pyflakes finding at line
5, the cursor line of the final diff line. -/
def c9M : Machine := init c9Lines [] [(5, ["m.py:5: bad thing".toList])]

/-- The machine state after six pulls of `c9M`: the annotation for the last
line has been emitted and its findings are drained. -/
def c9M6 : Machine := ⟨c9Lines, 5, 5, [], [(5, [])], .continueMsgs⟩

/-- Claim C9: when the last diff line is a non-removed content line with a
pending finding at the current cursor line, `continue_msgs`, after draining
the findings, advances the raw-line pointer to the length of the line list
and immediately dispatches `code_lines`, whose indexing is then out of
bounds: the pull taken at the in-bounds pointer 5 (of 6 lines) raises
`IndexError`, so the per-pull step function is not total over in-bounds
raw-line pointers. -/
theorem c9_out_of_bounds :
    stepsN 6 c9M
      = .ok (["p0".toList, "p1".toList, "p2".toList, "p3".toList,
              "FGHIJ@@ -2,2 +5,2 @@QRS".toList,
              error_line ("y = 2".toList) ("m.py:5: bad thing".toList)], c9M6)
    ∧ c9M6.diffLine < c9M6.diffLines.length
    ∧ continue_msgs c9M6 = code_lines ⟨c9Lines, 6, 6, [], [(5, [])], .codeLines⟩
    ∧ code_lines ⟨c9Lines, 6, 6, [], [(5, [])], .codeLines⟩ = .error .indexErr
    ∧ step c9M6 = .error .indexErr
    ∧ run 12 c9M = .error .indexErr :=
  ⟨rfl, by decide, rfl, rfl, rfl, rfl⟩

/-- The diff lines of the end-to-end example of claim C2: the standard
4-line preamble, a hunk header seeding the cursor at 10, the content line
`"x = 1"`, and one removed line. -/
def c2Lines : List Line :=
  ["diff --git a/f b/f".toList, "index 123..456".toList, "--- a/f".toList,
   "+++ b/f".toList, "ABCDE@@ -1,3 +10,3 @@XYZ".toList, "x = 1".toList,
   "\x1b[31m-y".toList]

/-- The machine of the end-to-end example: one pep8 warning and one pyflakes
error, both at line 10. -/
def c2M : Machine :=
  init c2Lines [(10, ["W1 line too long".toList])] [(10, ["E1 bad indent".toList])]

/-- The lines the machine of the end-to-end example actually produces. -/
def c2Outs : List Line :=
  ["diff --git a/f b/f".toList, "index 123..456".toList, "--- a/f".toList,
   "+++ b/f".toList, "ABCDE@@ -1,3 +10,3 @@XYZ".toList,
   error_line ("x = 1".toList) ("E1 bad indent".toList),
   warning_line [] ("W1 line too long".toList),
   "\x1b[31m-y".toList]

/-- Claim C2, refuted as stated: the claim says the machine emits the line
`"x = 1"` unmodified, once, as its own output line, followed by a separate
error-annotation line.  In fact no produced line equals `"x = 1"`: the
content line is fused into the first annotation line as the left pane of
`two_pane`, padded to 80 columns. -/
theorem c2_counterexample :
    (run 12 c2M).map (fun p => p.1) = .ok c2Outs
    ∧ ("x = 1".toList) ∉ c2Outs :=
  ⟨rfl, by decide⟩

/-- Claim C2, amended: after the preamble and the header (cursor seeded at
10), the machine produces one line that is `two_pane` of `"x = 1"` with
`"E1 bad indent"` in the error color — the content line appears exactly
once, as the left pane of this first annotation, preceding the message —
then `two_pane` of the empty text with `"W1 line too long"` in the warning
color, and the Cursor then advances to 11 (the final machine's cursor after
the next line is consumed at cursor 11). -/
theorem c2_end_to_end_amended :
    (run 12 c2M).map (fun p => (p.1, p.2.codeLine)) = .ok (c2Outs, 11)
    ∧ c2Outs[5]? = some (error_line ("x = 1".toList) ("E1 bad indent".toList))
    ∧ c2Outs[6]? = some (warning_line [] ("W1 line too long".toList))
    ∧ ("x = 1".toList) <+: error_line ("x = 1".toList) ("E1 bad indent".toList) :=
  ⟨rfl, rfl, rfl, by decide⟩

end DiffLint

namespace DiffLint

/-- Unfolding one pull at the front of `stepsN`. -/
theorem stepsN_cons (n : Nat) (m : Machine) :
    stepsN (n + 1) m = match step m with
      | .error e => .error e
      | .ok (out, m') =>
        match stepsN n m' with
        | .error e => .error e
        | .ok (outs, mf) => .ok (out :: outs, mf) := rfl

/-- Peeling the last pull off `stepsN`. -/
theorem stepsN_succ_back (n : Nat) : ∀ m : Machine, stepsN (n + 1) m =
    match stepsN n m with
    | .error e => .error e
    | .ok (outs, m') =>
      match step m' with
      | .error e => .error e
      | .ok (out, mf) => .ok (outs ++ [out], mf) := by
  induction n with
  | zero =>
    intro m
    cases hs : step m <;> simp [stepsN, hs]
  | succ k ih =>
    intro m
    cases hs : step m with
    | error e => rw [stepsN_cons (k + 1) m, stepsN_cons k m, hs]
    | ok p =>
      obtain ⟨out, m'⟩ := p
      simp only [stepsN_cons (k + 1) m, stepsN_cons k m, hs]
      rw [ih m']
      cases hk : stepsN k m' with
      | error e => simp
      | ok p2 =>
        obtain ⟨outs, m2⟩ := p2
        cases hs2 : step m2 with
        | error e => simp [hs2]
        | ok p3 =>
          obtain ⟨o2, mf⟩ := p3
          simp [hs2]

/-- Behavior of the `header` state when the current line matches the
hunk-header pattern. -/
theorem header_eq_of_parse (m : Machine) (line : Line) (n : Nat)
    (hline : List.get? m.diffLines m.diffLine = some line) (hp : parseHeader line = some n) :
    header m = .ok (line, { m with codeLine := n, state := .codeLines, diffLine := m.diffLine + 1 }) := by
  unfold header
  simp only [hline, hp]

/-- Behavior of the `header` state when the current line fails the
hunk-header pattern: the failed `assert`. -/
theorem header_assert_of_parse_none (m : Machine) (line : Line)
    (hline : List.get? m.diffLines m.diffLine = some line) (hp : parseHeader line = none) :
    header m = .error .headerAssert := by
  unfold header
  simp only [hline, hp]

/-- Claim C1, amended: the transition check of `diff_top` fires during the
pull that consumes the line at index 3, but that line is still consumed and
emitted by `diff_top`: after three pulls the state is still `diff_top` with
the pointer at 3; after four pulls the lines at indices 0–3 have all been
emitted verbatim by `diff_top` and the state is `header` with the pointer at
4; the fifth pull parses the line at index 4 (not 3) against the hunk-header
pattern and seeds the cursor from it. -/
theorem c1_boundary (l0 l1 l2 l3 l4 : Line) (rest : List Line) (pep pyf : Store)
    (q : Nat) (hq : parseHeader l4 = some q) :
    stepsN 3 (init (l0 :: l1 :: l2 :: l3 :: l4 :: rest) pep pyf)
      = .ok ([l0, l1, l2], ⟨l0 :: l1 :: l2 :: l3 :: l4 :: rest, 3, 0, pep, pyf, .diffTop⟩)
    ∧ stepsN 4 (init (l0 :: l1 :: l2 :: l3 :: l4 :: rest) pep pyf)
      = .ok ([l0, l1, l2, l3], ⟨l0 :: l1 :: l2 :: l3 :: l4 :: rest, 4, 0, pep, pyf, .header⟩)
    ∧ stepsN 5 (init (l0 :: l1 :: l2 :: l3 :: l4 :: rest) pep pyf)
      = .ok ([l0, l1, l2, l3, l4],
             ⟨l0 :: l1 :: l2 :: l3 :: l4 :: rest, 5, q, pep, pyf, .codeLines⟩) := by
  have hstep : step (⟨l0 :: l1 :: l2 :: l3 :: l4 :: rest, 4, 0, pep, pyf, .header⟩ : Machine)
      = .ok (l4, ⟨l0 :: l1 :: l2 :: l3 :: l4 :: rest, 5, q, pep, pyf, .codeLines⟩) := by
    have hh : step (⟨l0 :: l1 :: l2 :: l3 :: l4 :: rest, 4, 0, pep, pyf, .header⟩ : Machine)
        = header ⟨l0 :: l1 :: l2 :: l3 :: l4 :: rest, 4, 0, pep, pyf, .header⟩ := rfl
    rw [hh, header_eq_of_parse
      (⟨l0 :: l1 :: l2 :: l3 :: l4 :: rest, 4, 0, pep, pyf, .header⟩ : Machine) l4 q rfl hq]
  refine ⟨rfl, rfl, ?_⟩
  show stepsN (4 + 1) (init (l0 :: l1 :: l2 :: l3 :: l4 :: rest) pep pyf) = _
  rw [stepsN_succ_back]
  have h4 : stepsN 4 (init (l0 :: l1 :: l2 :: l3 :: l4 :: rest) pep pyf)
      = .ok ([l0, l1, l2, l3], ⟨l0 :: l1 :: l2 :: l3 :: l4 :: rest, 4, 0, pep, pyf, .header⟩) := rfl
  rw [h4]
  simp [hstep]

/-- The diff lines of the concrete boundary counterexample: the line at
index 3 does not match the hunk-header pattern, the line at index 4 does. -/
def c1Lines : List Line :=
  ["aaaaa".toList, "bbbbb".toList, "ccccc".toList, "NOT A HEADER".toList,
   "ABCDE@@ -1,3 +7,3 @@XYZ".toList, "ctx".toList]

/-- The machine of the boundary counterexample (no findings). -/
def c1M : Machine := init c1Lines [] []

/-- Claim C1, refuted as stated: on a concrete input whose line at index 3
fails the hunk-header pattern while the line at index 4 matches it with
`+`-side start 7, the machine after three pulls is still in `diff_top` (the
claim says the transition happens before index 3 is consumed, making
`header` consume it); the fourth pull emits the non-matching index-3 line
verbatim from `diff_top` with no abort (the claim says `header` parses index
3, which would fail the assert); and the fifth pull parses index 4, seeding
the cursor at 7. -/
theorem c1_counterexample :
    parseHeader ("NOT A HEADER".toList) = none
    ∧ stepsN 3 c1M = .ok (["aaaaa".toList, "bbbbb".toList, "ccccc".toList],
        ⟨c1Lines, 3, 0, [], [], .diffTop⟩)
    ∧ stepsN 4 c1M = .ok (["aaaaa".toList, "bbbbb".toList, "ccccc".toList,
        "NOT A HEADER".toList], ⟨c1Lines, 4, 0, [], [], .header⟩)
    ∧ stepsN 5 c1M = .ok (["aaaaa".toList, "bbbbb".toList, "ccccc".toList,
        "NOT A HEADER".toList, "ABCDE@@ -1,3 +7,3 @@XYZ".toList],
        ⟨c1Lines, 5, 7, [], [], .codeLines⟩) :=
  ⟨rfl, rfl, rfl, rfl⟩

/-- Witness instantiating `c1_boundary` at a concrete header line. -/
theorem c1_boundary_witness :
    stepsN 3 (init (("l0".toList) :: ("l1".toList) :: ("l2".toList) :: ("l3".toList)
        :: ("ABCDE@@ -1,3 +10,3 @@XYZ".toList) :: [] ) [] [])
      = .ok (["l0".toList, "l1".toList, "l2".toList],
             ⟨("l0".toList) :: ("l1".toList) :: ("l2".toList) :: ("l3".toList)
               :: ("ABCDE@@ -1,3 +10,3 @@XYZ".toList) :: [], 3, 0, [], [], .diffTop⟩)
    ∧ stepsN 4 (init (("l0".toList) :: ("l1".toList) :: ("l2".toList) :: ("l3".toList)
        :: ("ABCDE@@ -1,3 +10,3 @@XYZ".toList) :: [] ) [] [])
      = .ok (["l0".toList, "l1".toList, "l2".toList, "l3".toList],
             ⟨("l0".toList) :: ("l1".toList) :: ("l2".toList) :: ("l3".toList)
               :: ("ABCDE@@ -1,3 +10,3 @@XYZ".toList) :: [], 4, 0, [], [], .header⟩)
    ∧ stepsN 5 (init (("l0".toList) :: ("l1".toList) :: ("l2".toList) :: ("l3".toList)
        :: ("ABCDE@@ -1,3 +10,3 @@XYZ".toList) :: [] ) [] [])
      = .ok (["l0".toList, "l1".toList, "l2".toList, "l3".toList,
              "ABCDE@@ -1,3 +10,3 @@XYZ".toList],
             ⟨("l0".toList) :: ("l1".toList) :: ("l2".toList) :: ("l3".toList)
               :: ("ABCDE@@ -1,3 +10,3 @@XYZ".toList) :: [], 5, 10, [], [], .codeLines⟩) :=
  c1_boundary ("l0".toList) ("l1".toList) ("l2".toList) ("l3".toList)
    ("ABCDE@@ -1,3 +10,3 @@XYZ".toList) [] [] [] 10 rfl

end DiffLint

namespace DiffLint

/-! ## Branch behavior of the state handlers -/

theorem step_diffTop (m : Machine) (h : m.state = .diffTop) : step m = diff_top m := by
  simp [step, h]

theorem step_header (m : Machine) (h : m.state = .header) : step m = header m := by
  simp [step, h]

theorem step_codeLines (m : Machine) (h : m.state = .codeLines) : step m = code_lines m := by
  simp [step, h]

theorem step_continueMsgs (m : Machine) (h : m.state = .continueMsgs) :
    step m = continue_msgs m := by
  simp [step, h]

/-- `code_lines` on a removed line: emitted verbatim, only the raw pointer
advances. -/
theorem code_lines_removed (m : Machine) (line : Line)
    (hline : List.get? m.diffLines m.diffLine = some line)
    (hred : line.take 6 = redMinus) :
    code_lines m = .ok (line, { m with diffLine := m.diffLine + 1 }) := by
  rw [List.get?_eq_getElem?] at hline
  simp [code_lines, hline, hred]

/-- `code_lines` on a content line with a pending pyflakes finding: pop it,
render the annotation from the content line, keep both counters in place. -/
theorem code_lines_pyflakes (m : Machine) (line msg : Line) (more : List Line)
    (hline : List.get? m.diffLines m.diffLine = some line)
    (hred : line.take 6 ≠ redMinus)
    (hpy : storeGet m.pyflakes m.codeLine = msg :: more) :
    code_lines m = .ok (error_line line msg,
      { m with state := .continueMsgs, pyflakes := storePopFront m.pyflakes m.codeLine }) := by
  rw [List.get?_eq_getElem?] at hline
  simp [code_lines, hline, hred, hpy]

/-- `code_lines` on a content line with no pyflakes finding but a pending
pep8 finding: pop it, render the annotation from the content line. -/
theorem code_lines_pep8 (m : Machine) (line msg : Line) (more : List Line)
    (hline : List.get? m.diffLines m.diffLine = some line)
    (hred : line.take 6 ≠ redMinus)
    (hpy : storeGet m.pyflakes m.codeLine = [])
    (hpep : storeGet m.pep8 m.codeLine = msg :: more) :
    code_lines m = .ok (warning_line line msg,
      { m with state := .continueMsgs, pep8 := storePopFront m.pep8 m.codeLine }) := by
  rw [List.get?_eq_getElem?] at hline
  simp [code_lines, hline, hred, hpy, hpep]

/-- `code_lines` on a content line with no pending finding: emitted verbatim,
both the raw pointer and the cursor advance by exactly one. -/
theorem code_lines_clean (m : Machine) (line : Line)
    (hline : List.get? m.diffLines m.diffLine = some line)
    (hred : line.take 6 ≠ redMinus)
    (hpy : storeGet m.pyflakes m.codeLine = [])
    (hpep : storeGet m.pep8 m.codeLine = []) :
    code_lines m = .ok (line, { m with diffLine := m.diffLine + 1, codeLine := m.codeLine + 1 }) := by
  rw [List.get?_eq_getElem?] at hline
  simp [code_lines, hline, hred, hpy, hpep]

/-- `code_lines` past the end of the line list: the `IndexError`. -/
theorem code_lines_oob (m : Machine)
    (hline : List.get? m.diffLines m.diffLine = none) :
    code_lines m = .error .indexErr := by
  rw [List.get?_eq_getElem?] at hline
  simp [code_lines, hline]

/-- `continue_msgs` with a remaining pyflakes finding at the cursor: pop and
emit it as a bare annotation (empty text pane). -/
theorem continue_msgs_pyflakes (m : Machine) (msg : Line) (more : List Line)
    (hpy : storeGet m.pyflakes m.codeLine = msg :: more) :
    continue_msgs m = .ok (error_line [] msg,
      { m with pyflakes := storePopFront m.pyflakes m.codeLine }) := by
  simp [continue_msgs, hpy]

/-- `continue_msgs` with no pyflakes finding but a remaining pep8 finding at
the cursor: pop and emit it as a bare annotation. -/
theorem continue_msgs_pep8 (m : Machine) (msg : Line) (more : List Line)
    (hpy : storeGet m.pyflakes m.codeLine = [])
    (hpep : storeGet m.pep8 m.codeLine = msg :: more) :
    continue_msgs m = .ok (warning_line [] msg,
      { m with pep8 := storePopFront m.pep8 m.codeLine }) := by
  simp [continue_msgs, hpy, hpep]

/-- `continue_msgs` with no remaining finding at the cursor: advance both
counters by exactly one, switch back to `code_lines`, and dispatch it on the
same pull. -/
theorem continue_msgs_drain (m : Machine)
    (hpy : storeGet m.pyflakes m.codeLine = [])
    (hpep : storeGet m.pep8 m.codeLine = []) :
    continue_msgs m
      = code_lines
          { m with
            diffLine := m.diffLine + 1, codeLine := m.codeLine + 1, state := .codeLines } := by
  simp [continue_msgs, hpy, hpep]

end DiffLint

namespace DiffLint

/-- Claim C4: within a hunk, the cursor advances by exactly 1 per non-removed
content line and never on a removed line.  Concretely, for any pull taken in
the `code_lines` state: a removed line (first six characters the red escape
sequence and `-`) is emitted verbatim and advances only the raw-line pointer,
leaving the cursor untouched; a content line with no pending finding is
emitted verbatim and advances raw pointer and cursor by exactly one each; a
content line opening an annotation — whether the first pending finding is a
pyflakes error or a pep8 warning — advances neither counter; and every pull
taken in the `continue_msgs` state leaves the cursor untouched while it pops
a finding of either severity, the cursor's single advance being performed
exactly once, by the drain pull, which adds exactly one to the cursor before
dispatching `code_lines` at the next line. -/
theorem c4_cursor_advance :
    (∀ m : Machine, ∀ line : Line, m.state = .codeLines →
        List.get? m.diffLines m.diffLine = some line →
        line.take 6 = redMinus →
        step m = .ok (line, { m with diffLine := m.diffLine + 1 }))
    ∧ (∀ m : Machine, ∀ line : Line, m.state = .codeLines →
        List.get? m.diffLines m.diffLine = some line →
        line.take 6 ≠ redMinus → storeGet m.pyflakes m.codeLine = [] →
        storeGet m.pep8 m.codeLine = [] →
        step m = .ok (line, { m with diffLine := m.diffLine + 1, codeLine := m.codeLine + 1 }))
    ∧ (∀ m : Machine, ∀ line msg : Line, ∀ more : List Line, m.state = .codeLines →
        List.get? m.diffLines m.diffLine = some line →
        line.take 6 ≠ redMinus → storeGet m.pyflakes m.codeLine = msg :: more →
        step m = .ok (error_line line msg,
          { m with state := .continueMsgs, pyflakes := storePopFront m.pyflakes m.codeLine }))
    ∧ (∀ m : Machine, ∀ line msg : Line, ∀ more : List Line, m.state = .codeLines →
        List.get? m.diffLines m.diffLine = some line →
        line.take 6 ≠ redMinus → storeGet m.pyflakes m.codeLine = [] →
        storeGet m.pep8 m.codeLine = msg :: more →
        step m = .ok (warning_line line msg,
          { m with state := .continueMsgs, pep8 := storePopFront m.pep8 m.codeLine }))
    ∧ (∀ m : Machine, ∀ msg : Line, ∀ more : List Line, m.state = .continueMsgs →
        storeGet m.pyflakes m.codeLine = msg :: more →
        step m = .ok (error_line [] msg,
          { m with pyflakes := storePopFront m.pyflakes m.codeLine }))
    ∧ (∀ m : Machine, ∀ msg : Line, ∀ more : List Line, m.state = .continueMsgs →
        storeGet m.pyflakes m.codeLine = [] →
        storeGet m.pep8 m.codeLine = msg :: more →
        step m = .ok (warning_line [] msg,
          { m with pep8 := storePopFront m.pep8 m.codeLine }))
    ∧ (∀ m : Machine, m.state = .continueMsgs → storeGet m.pyflakes m.codeLine = [] →
        storeGet m.pep8 m.codeLine = [] →
        step m = code_lines
          { m with
            diffLine := m.diffLine + 1, codeLine := m.codeLine + 1, state := .codeLines }) := by
  refine ⟨?_, ?_, ?_, ?_, ?_, ?_, ?_⟩
  · intro m line htag hline hred
    rw [step_codeLines m htag, code_lines_removed m line hline hred]
  · intro m line htag hline hred hpy hpep
    rw [step_codeLines m htag, code_lines_clean m line hline hred hpy hpep]
  · intro m line msg more htag hline hred hpy
    rw [step_codeLines m htag, code_lines_pyflakes m line msg more hline hred hpy]
  · intro m line msg more htag hline hred hpy hpep
    rw [step_codeLines m htag, code_lines_pep8 m line msg more hline hred hpy hpep]
  · intro m msg more htag hpy
    rw [step_continueMsgs m htag, continue_msgs_pyflakes m msg more hpy]
  · intro m msg more htag hpy hpep
    rw [step_continueMsgs m htag, continue_msgs_pep8 m msg more hpy hpep]
  · intro m htag hpy hpep
    rw [step_continueMsgs m htag, continue_msgs_drain m hpy hpep]

/-- Witness instantiating every part of `c4_cursor_advance` at concrete
machines. -/
theorem c4_cursor_advance_witness :
    step (⟨["\x1b[31m-x".toList], 0, 5, [], [], .codeLines⟩ : Machine)
      = .ok ("\x1b[31m-x".toList, ⟨["\x1b[31m-x".toList], 1, 5, [], [], .codeLines⟩)
    ∧ step (⟨["x".toList], 0, 5, [], [], .codeLines⟩ : Machine)
      = .ok ("x".toList, ⟨["x".toList], 1, 6, [], [], .codeLines⟩)
    ∧ step (⟨["x".toList], 0, 5, [], [(5, ["E".toList])], .codeLines⟩ : Machine)
      = .ok (error_line ("x".toList) ("E".toList),
             ⟨["x".toList], 0, 5, [], [(5, [])], .continueMsgs⟩)
    ∧ step (⟨["x".toList], 0, 5, [(5, ["W".toList])], [], .codeLines⟩ : Machine)
      = .ok (warning_line ("x".toList) ("W".toList),
             ⟨["x".toList], 0, 5, [(5, [])], [], .continueMsgs⟩)
    ∧ step (⟨["a".toList], 0, 7, [], [(7, ["E2".toList])], .continueMsgs⟩ : Machine)
      = .ok (error_line [] ("E2".toList),
             ⟨["a".toList], 0, 7, [], [(7, [])], .continueMsgs⟩)
    ∧ step (⟨["a".toList], 0, 7, [(7, ["W2".toList])], [], .continueMsgs⟩ : Machine)
      = .ok (warning_line [] ("W2".toList),
             ⟨["a".toList], 0, 7, [(7, [])], [], .continueMsgs⟩)
    ∧ step (⟨["a".toList, "b".toList], 0, 9, [], [], .continueMsgs⟩ : Machine)
      = code_lines ⟨["a".toList, "b".toList], 1, 10, [], [], .codeLines⟩ :=
  ⟨c4_cursor_advance.1 _ _ rfl rfl (by decide),
   c4_cursor_advance.2.1 _ _ rfl rfl (by decide) rfl rfl,
   c4_cursor_advance.2.2.1 _ _ _ _ rfl rfl (by decide) rfl,
   c4_cursor_advance.2.2.2.1 _ _ _ _ rfl rfl (by decide) rfl rfl,
   c4_cursor_advance.2.2.2.2.1 _ _ _ rfl rfl,
   c4_cursor_advance.2.2.2.2.2.1 _ _ _ rfl rfl rfl,
   c4_cursor_advance.2.2.2.2.2.2 _ rfl rfl rfl⟩

end DiffLint

namespace DiffLint

/-- Draining `continue_msgs`: with pyflakes findings `es` and pep8 findings
`ws` pending at the cursor, the next `es.length + ws.length` pulls emit all
the error annotations (in store order) and then all the warning annotations
(in store order), all with an empty text pane, leaving both counters in
place and both stores drained at the cursor. -/
theorem drain_run (es ws : List Line) : ∀ (rest : Nat) (m : Machine),
    m.state = .continueMsgs →
    storeGet m.pyflakes m.codeLine = es →
    storeGet m.pep8 m.codeLine = ws →
    m.diffLine < m.diffLines.length →
    ∃ m' : Machine,
      run (es.length + ws.length + rest) m
        = (run rest m').map (fun p =>
            (es.map (error_line []) ++ ws.map (warning_line []) ++ p.1, p.2))
      ∧ m'.state = .continueMsgs ∧ m'.diffLine = m.diffLine ∧ m'.codeLine = m.codeLine
      ∧ m'.diffLines = m.diffLines
      ∧ storeGet m'.pyflakes m'.codeLine = [] ∧ storeGet m'.pep8 m'.codeLine = [] := by
  induction es with
  | nil =>
    induction ws with
    | nil =>
      intro rest m htag hpy hpep hd
      refine ⟨m, ?_, htag, rfl, rfl, rfl, hpy, hpep⟩
      simp only [List.length_nil, Nat.zero_add]
      cases h : run rest m <;> simp [Except.map, h]
    | cons w ws' ihw =>
      intro rest m htag hpy hpep hd
      have hstep : step m = .ok (warning_line [] w,
          { m with pep8 := storePopFront m.pep8 m.codeLine }) := by
        rw [step_continueMsgs m htag, continue_msgs_pep8 m w ws' hpy hpep]
      have h1pep : storeGet ({ m with pep8 := storePopFront m.pep8 m.codeLine } : Machine).pep8
          ({ m with pep8 := storePopFront m.pep8 m.codeLine } : Machine).codeLine = ws' := by
        show storeGet (storePopFront m.pep8 m.codeLine) m.codeLine = ws'
        rw [storeGet_popFront_self, hpep]
        rfl
      obtain ⟨m', hrun, p1, p2, p3, p4, p5, p6⟩ :=
        ihw rest { m with pep8 := storePopFront m.pep8 m.codeLine } htag hpy h1pep hd
      refine ⟨m', ?_, p1, p2, p3, p4, p5, p6⟩
      have hfuel : ([] : List Line).length + (w :: ws').length + rest
          = (([] : List Line).length + ws'.length + rest) + 1 := by
        simp only [List.length_nil, List.length_cons]
        omega
      rw [hfuel, run_succ_of_step _ m _ _ hd hstep, hrun]
      cases h : run rest m' <;> simp [Except.map, h]
  | cons e es' ihe =>
    intro rest m htag hpy hpep hd
    have hstep : step m = .ok (error_line [] e,
        { m with pyflakes := storePopFront m.pyflakes m.codeLine }) := by
      rw [step_continueMsgs m htag, continue_msgs_pyflakes m e es' hpy]
    have h1py : storeGet ({ m with pyflakes := storePopFront m.pyflakes m.codeLine } : Machine).pyflakes
        ({ m with pyflakes := storePopFront m.pyflakes m.codeLine } : Machine).codeLine = es' := by
      show storeGet (storePopFront m.pyflakes m.codeLine) m.codeLine = es'
      rw [storeGet_popFront_self, hpy]
      rfl
    obtain ⟨m', hrun, p1, p2, p3, p4, p5, p6⟩ :=
      ihe rest { m with pyflakes := storePopFront m.pyflakes m.codeLine } htag h1py hpep hd
    refine ⟨m', ?_, p1, p2, p3, p4, p5, p6⟩
    have hfuel : (e :: es').length + ws.length + rest
        = (es'.length + ws.length + rest) + 1 := by
      simp only [List.length_cons]
      omega
    rw [hfuel, run_succ_of_step _ m _ _ hd hstep, hrun]
    cases h : run rest m' <;> simp [Except.map, h]

/-- Claim C3: for a content line whose cursor line has pending findings in
both stores, the machine emits the two-pane annotation built from the
content line and the first error finding, then the remaining error (pyflakes)
annotations in original report order, then all warning (pep8) annotations in
original report order — all errors strictly before all warnings, the content
line appearing exactly once, in the first annotation, preceding both
severities — and only then moves on. -/
theorem c3_severity_order (m : Machine) (line e w : Line) (es ws : List Line) (rest : Nat)
    (htag : m.state = .codeLines)
    (hline : List.get? m.diffLines m.diffLine = some line)
    (hred : line.take 6 ≠ redMinus)
    (hpy : storeGet m.pyflakes m.codeLine = e :: es)
    (hpep : storeGet m.pep8 m.codeLine = w :: ws) :
    ∃ m' : Machine,
      run (1 + (es.length + (w :: ws).length + rest)) m
        = (run rest m').map (fun p =>
            (error_line line e
              :: (es.map (error_line []) ++ (w :: ws).map (warning_line []) ++ p.1), p.2))
      ∧ m'.state = .continueMsgs ∧ m'.diffLine = m.diffLine ∧ m'.codeLine = m.codeLine
      ∧ m'.diffLines = m.diffLines
      ∧ storeGet m'.pyflakes m'.codeLine = [] ∧ storeGet m'.pep8 m'.codeLine = [] := by
  have hd : m.diffLine < m.diffLines.length := by
    by_contra hcon
    rw [List.get?_eq_none.mpr (Nat.le_of_not_lt hcon)] at hline
    exact Option.noConfusion hline
  have hstep : step m = .ok (error_line line e,
      { m with state := .continueMsgs, pyflakes := storePopFront m.pyflakes m.codeLine }) := by
    rw [step_codeLines m htag, code_lines_pyflakes m line e es hline hred hpy]
  have h1py : storeGet
      ({ m with state := .continueMsgs, pyflakes := storePopFront m.pyflakes m.codeLine } : Machine).pyflakes
      ({ m with state := .continueMsgs, pyflakes := storePopFront m.pyflakes m.codeLine } : Machine).codeLine
      = es := by
    show storeGet (storePopFront m.pyflakes m.codeLine) m.codeLine = es
    rw [storeGet_popFront_self, hpy]
    rfl
  obtain ⟨m', hrun, p1, p2, p3, p4, p5, p6⟩ :=
    drain_run es (w :: ws) rest
      { m with state := .continueMsgs, pyflakes := storePopFront m.pyflakes m.codeLine }
      rfl h1py hpep hd
  refine ⟨m', ?_, p1, p2, p3, p4, p5, p6⟩
  have hfuel : 1 + (es.length + (w :: ws).length + rest)
      = (es.length + (w :: ws).length + rest) + 1 := by omega
  rw [hfuel, run_succ_of_step _ m _ _ hd hstep, hrun]
  cases h : run rest m' <;> simp [Except.map, h]

/-- Witness instantiating `c3_severity_order`: one error and one warning at
cursor line 4, content line `"a"`. -/
theorem c3_severity_order_witness :
    ∃ m' : Machine,
      run (1 + (([] : List Line).length + (["W".toList] : List Line).length + 0))
          (⟨["a".toList], 0, 4, [(4, ["W".toList])], [(4, ["E".toList])], .codeLines⟩ : Machine)
        = (run 0 m').map (fun p =>
            (error_line ("a".toList) ("E".toList)
              :: (([] : List Line).map (error_line [])
                  ++ (["W".toList] : List Line).map (warning_line []) ++ p.1), p.2))
      ∧ m'.state = .continueMsgs ∧ m'.diffLine = 0 ∧ m'.codeLine = 4
      ∧ m'.diffLines = ["a".toList]
      ∧ storeGet m'.pyflakes m'.codeLine = [] ∧ storeGet m'.pep8 m'.codeLine = [] :=
  c3_severity_order
    (⟨["a".toList], 0, 4, [(4, ["W".toList])], [(4, ["E".toList])], .codeLines⟩ : Machine)
    ("a".toList) ("E".toList) ("W".toList) [] [] 0 rfl rfl (by decide) rfl rfl

end DiffLint

namespace DiffLint

/-- With empty stores, the `code_lines` phase echoes the remaining diff lines
verbatim. -/
theorem run_empty_code : ∀ (fuel : Nat) (m : Machine), m.state = .codeLines →
    m.pyflakes = [] → m.pep8 = [] →
    m.diffLines.length - m.diffLine ≤ fuel →
    ∃ mf : Machine, run fuel m = .ok (m.diffLines.drop m.diffLine, mf) := by
  intro fuel
  induction fuel with
  | zero =>
    intro m htag hpy hpep hle
    have hd : ¬ m.diffLine < m.diffLines.length := by omega
    refine ⟨m, ?_⟩
    rw [run_done 0 m hd, List.drop_eq_nil_of_le (by omega)]
  | succ f ih =>
    intro m htag hpy hpep hle
    by_cases hd : m.diffLine < m.diffLines.length
    · have hline : List.get? m.diffLines m.diffLine = some m.diffLines[m.diffLine] := by
        rw [List.get?_eq_getElem?]
        exact List.getElem?_eq_getElem hd
      by_cases hr : (m.diffLines[m.diffLine]).take 6 = redMinus
      · have hs : step m = .ok (m.diffLines[m.diffLine],
            { m with diffLine := m.diffLine + 1 }) := by
          rw [step_codeLines m htag, code_lines_removed m _ hline hr]
        obtain ⟨mf, hrunf⟩ := ih { m with diffLine := m.diffLine + 1 } htag hpy hpep
          (show m.diffLines.length - (m.diffLine + 1) ≤ f by omega)
        have hrunf' : run f ({ m with diffLine := m.diffLine + 1 } : Machine)
            = .ok (m.diffLines.drop (m.diffLine + 1), mf) := hrunf
        refine ⟨mf, ?_⟩
        rw [run_succ_of_step f m _ _ hd hs, hrunf']
        simp only [Except.map]
        rw [List.drop_eq_getElem_cons hd]
      · have hs : step m = .ok (m.diffLines[m.diffLine],
            { m with diffLine := m.diffLine + 1, codeLine := m.codeLine + 1 }) := by
          rw [step_codeLines m htag,
            code_lines_clean m _ hline hr (by rw [hpy]; rfl) (by rw [hpep]; rfl)]
        obtain ⟨mf, hrunf⟩ := ih { m with diffLine := m.diffLine + 1, codeLine := m.codeLine + 1 }
          htag hpy hpep (show m.diffLines.length - (m.diffLine + 1) ≤ f by omega)
        have hrunf' : run f ({ m with diffLine := m.diffLine + 1, codeLine := m.codeLine + 1 } : Machine)
            = .ok (m.diffLines.drop (m.diffLine + 1), mf) := hrunf
        refine ⟨mf, ?_⟩
        rw [run_succ_of_step f m _ _ hd hs, hrunf']
        simp only [Except.map]
        rw [List.drop_eq_getElem_cons hd]
    · refine ⟨m, ?_⟩
      rw [run_done _ m hd, List.drop_eq_nil_of_le (by omega)]

end DiffLint

namespace DiffLint

/-- Claim C5: on a well-formed diff (if the machine reaches the position
where it expects a hunk header — index 4 — that line matches the pattern),
with both Finding Stores empty the produced output is byte-for-byte the
input diff line sequence. -/
theorem c5_round_trip (lines : List Line)
    (hhdr : ∀ l : Line, List.get? lines 4 = some l → (parseHeader l).isSome) :
    ∃ mf : Machine, run lines.length (init lines [] []) = .ok (lines, mf) := by
  match lines with
  | [] => exact ⟨init [] [] [], rfl⟩
  | [a] => exact ⟨⟨[a], 1, 0, [], [], .diffTop⟩, rfl⟩
  | [a, b] => exact ⟨⟨[a, b], 2, 0, [], [], .diffTop⟩, rfl⟩
  | [a, b, c] => exact ⟨⟨[a, b, c], 3, 0, [], [], .diffTop⟩, rfl⟩
  | [a, b, c, d] => exact ⟨⟨[a, b, c, d], 4, 0, [], [], .header⟩, rfl⟩
  | a :: b :: c :: d :: e :: rest =>
    obtain ⟨n, hn⟩ := Option.isSome_iff_exists.mp (hhdr e rfl)
    have s4 : step (⟨a :: b :: c :: d :: e :: rest, 4, 0, [], [], .header⟩ : Machine)
        = .ok (e, ⟨a :: b :: c :: d :: e :: rest, 5, n, [], [], .codeLines⟩) := by
      have hh : step (⟨a :: b :: c :: d :: e :: rest, 4, 0, [], [], .header⟩ : Machine)
          = header ⟨a :: b :: c :: d :: e :: rest, 4, 0, [], [], .header⟩ := rfl
      rw [hh, header_eq_of_parse
        (⟨a :: b :: c :: d :: e :: rest, 4, 0, [], [], .header⟩ : Machine) e n rfl hn]
    obtain ⟨mf, hrest⟩ := run_empty_code rest.length
      (⟨a :: b :: c :: d :: e :: rest, 5, n, [], [], .codeLines⟩ : Machine) rfl rfl rfl
      (show (a :: b :: c :: d :: e :: rest).length - 5 ≤ rest.length by
        simp only [List.length_cons]; omega)
    have hrest' : run rest.length
        (⟨a :: b :: c :: d :: e :: rest, 5, n, [], [], .codeLines⟩ : Machine)
        = .ok (rest, mf) := hrest
    refine ⟨mf, ?_⟩
    show run (rest.length + 5) (⟨a :: b :: c :: d :: e :: rest, 0, 0, [], [], .diffTop⟩ : Machine)
      = .ok (a :: b :: c :: d :: e :: rest, mf)
    rw [show rest.length + 5 = rest.length + 4 + 1 from rfl,
      run_succ_of_step (rest.length + 4) _ _ _
        (show (0 : Nat) < (a :: b :: c :: d :: e :: rest).length by
          simp only [List.length_cons]; omega)
        (rfl : step (⟨a :: b :: c :: d :: e :: rest, 0, 0, [], [], .diffTop⟩ : Machine)
          = .ok (a, ⟨a :: b :: c :: d :: e :: rest, 1, 0, [], [], .diffTop⟩))]
    rw [show rest.length + 4 = rest.length + 3 + 1 from rfl,
      run_succ_of_step (rest.length + 3) _ _ _
        (show (1 : Nat) < (a :: b :: c :: d :: e :: rest).length by
          simp only [List.length_cons]; omega)
        (rfl : step (⟨a :: b :: c :: d :: e :: rest, 1, 0, [], [], .diffTop⟩ : Machine)
          = .ok (b, ⟨a :: b :: c :: d :: e :: rest, 2, 0, [], [], .diffTop⟩))]
    rw [show rest.length + 3 = rest.length + 2 + 1 from rfl,
      run_succ_of_step (rest.length + 2) _ _ _
        (show (2 : Nat) < (a :: b :: c :: d :: e :: rest).length by
          simp only [List.length_cons]; omega)
        (rfl : step (⟨a :: b :: c :: d :: e :: rest, 2, 0, [], [], .diffTop⟩ : Machine)
          = .ok (c, ⟨a :: b :: c :: d :: e :: rest, 3, 0, [], [], .diffTop⟩))]
    rw [show rest.length + 2 = rest.length + 1 + 1 from rfl,
      run_succ_of_step (rest.length + 1) _ _ _
        (show (3 : Nat) < (a :: b :: c :: d :: e :: rest).length by
          simp only [List.length_cons]; omega)
        (rfl : step (⟨a :: b :: c :: d :: e :: rest, 3, 0, [], [], .diffTop⟩ : Machine)
          = .ok (d, ⟨a :: b :: c :: d :: e :: rest, 4, 0, [], [], .header⟩))]
    rw [run_succ_of_step rest.length _ _ _
        (show (4 : Nat) < (a :: b :: c :: d :: e :: rest).length by
          simp only [List.length_cons]; omega) s4,
      hrest']
    simp [Except.map]

/-- The diff lines of the round-trip witness. -/
def c5WLines : List Line :=
  ["w0".toList, "w1".toList, "w2".toList, "w3".toList,
   "ABCDE@@ -1,3 +10,3 @@XYZ".toList, "ctx line".toList, "\x1b[31m-gone".toList]

/-- Witness instantiating `c5_round_trip` on a concrete clean diff. -/
theorem c5_round_trip_witness :
    ∃ mf : Machine, run c5WLines.length (init c5WLines [] []) = .ok (c5WLines, mf) :=
  c5_round_trip c5WLines (by
    intro l hl
    have h2 : some ("ABCDE@@ -1,3 +10,3 @@XYZ".toList) = some l := hl
    injection h2 with h3
    rw [← h3]
    decide)

end DiffLint

namespace DiffLint

/-- The worker of `parse_output` fails if and only if some non-empty line
lacks the `:<digits>:` pattern. -/
theorem parse_output_go_error_iff : ∀ (ls : List Line) (acc : Store),
    (∃ e : Line, parse_output_go ls acc = .error e)
      ↔ ∃ l : Line, l ∈ ls ∧ l ≠ [] ∧ findLineNo l = none := by
  intro ls
  induction ls with
  | nil => intro acc; simp [parse_output_go]
  | cons l ls ih =>
    intro acc
    by_cases hl : l = []
    · subst hl
      rw [show parse_output_go ([] :: ls) acc = parse_output_go ls acc from rfl, ih acc]
      constructor
      · rintro ⟨x, hx, hne, hfx⟩
        exact ⟨x, List.mem_cons_of_mem _ hx, hne, hfx⟩
      · rintro ⟨x, hx, hne, hfx⟩
        rcases List.mem_cons.mp hx with h | h
        · subst h
          exact absurd rfl hne
        · exact ⟨x, h, hne, hfx⟩
    · cases hf : findLineNo l with
      | none =>
        simp only [parse_output_go, if_neg hl, hf]
        constructor
        · intro _
          exact ⟨l, List.mem_cons_self _ _, hl, hf⟩
        · intro _
          exact ⟨l, rfl⟩
      | some n =>
        simp only [parse_output_go, if_neg hl, hf]
        rw [ih (storePush acc n l)]
        constructor
        · rintro ⟨x, hx, hne, hfx⟩
          exact ⟨x, List.mem_cons_of_mem _ hx, hne, hfx⟩
        · rintro ⟨x, hx, hne, hfx⟩
          rcases List.mem_cons.mp hx with h | h
          · subst h
            rw [hf] at hfx
            exact Option.noConfusion hfx
          · exact ⟨x, h, hne, hfx⟩

/-- Claim C7, amended: the checker-output parser aborts (the failed `assert`)
iff some non-empty line of the split output lacks the `:<digits>:` pattern —
empty output yields an empty mapping, not an error — and a pull in the
`header` state aborts with the failed `assert` iff the line it parses fails
the hunk-header pattern.  (These are the only assertion aborts, but not the
only aborts: see the out-of-bounds indexing of claim C9, exhibited by this
claim's counterexample on fully well-formed input.) -/
theorem c7_abort_amended :
    (∀ output : List Char,
      (∃ e : Line, parse_output output = .error e)
        ↔ ∃ l : Line, l ∈ splitNl output ∧ l ≠ [] ∧ findLineNo l = none)
    ∧ parse_output [] = .ok []
    ∧ (∀ m : Machine, ∀ line : Line, m.state = .header →
        List.get? m.diffLines m.diffLine = some line →
        ((step m = .error .headerAssert) ↔ parseHeader line = none)
        ∧ ∀ n : Nat, parseHeader line = some n →
            step m = .ok (line,
              { m with codeLine := n, state := .codeLines, diffLine := m.diffLine + 1 })) := by
  refine ⟨?_, rfl, ?_⟩
  · intro output
    exact parse_output_go_error_iff (splitNl output) []
  · intro m line htag hline
    constructor
    · constructor
      · intro hstep
        cases hp : parseHeader line with
        | none => rfl
        | some n =>
          rw [step_header m htag, header_eq_of_parse m line n hline hp] at hstep
          exact Except.noConfusion hstep
      · intro hp
        rw [step_header m htag, header_assert_of_parse_none m line hline hp]
    · intro n hp
      rw [step_header m htag, header_eq_of_parse m line n hline hp]

/-- The diff lines of the C7 counterexample: everything well-formed, but a
finding remains pending at the cursor line of the final diff line. -/
def c7Lines : List Line :=
  ["q0".toList, "q1".toList, "q2".toList, "q3".toList,
   "KLMNO@@ -1,2 +10,2 @@TUV".toList, "x = 1".toList]

/-- Claim C7, refuted as stated: an input on which every non-empty checker
line has the `:<digits>:` pattern (its parse succeeds) and the hunk-header
line matches the pattern, yet the run aborts — with `IndexError`, not an
assertion — because a finding is pending at the cursor of the final diff
line.  So (a) and (b) are not the only aborting input conditions. -/
theorem c7_counterexample :
    parse_output ("f.py:10: E1 bad indent".toList)
      = .ok [(10, ["f.py:10: E1 bad indent".toList])]
    ∧ parseHeader ("KLMNO@@ -1,2 +10,2 @@TUV".toList) = some 10
    ∧ run 12 (init c7Lines [] [(10, ["f.py:10: E1 bad indent".toList])]) = .error .indexErr
    ∧ Err.indexErr ≠ Err.headerAssert :=
  ⟨rfl, rfl, rfl, by decide⟩

/-- Witness instantiating the header part of `c7_abort_amended` on a concrete
matching header line. -/
theorem c7_abort_amended_witness :
    step (⟨["KLMNO@@ -1,2 +10,2 @@TUV".toList], 0, 0, [], [], .header⟩ : Machine)
      = .ok ("KLMNO@@ -1,2 +10,2 @@TUV".toList,
             ⟨["KLMNO@@ -1,2 +10,2 @@TUV".toList], 1, 10, [], [], .codeLines⟩) :=
  (c7_abort_amended.2.2 (⟨["KLMNO@@ -1,2 +10,2 @@TUV".toList], 0, 0, [], [], .header⟩ : Machine)
    ("KLMNO@@ -1,2 +10,2 @@TUV".toList) rfl rfl).2 10 rfl

end DiffLint

namespace DiffLint

/-- A successful indexing implies the pointer is in bounds. -/
theorem get?_lt (l : List Line) (n : Nat) (a : Line) (h : List.get? l n = some a) :
    n < l.length := by
  by_contra hcon
  rw [List.get?_eq_none.mpr (Nat.le_of_not_lt hcon)] at h
  exact Option.noConfusion h

/-- A successful `diff_top` pull: in bounds, raw pointer advances by exactly
one, stores untouched. -/
theorem diff_top_delta (m : Machine) (out : Line) (m' : Machine)
    (h : diff_top m = .ok (out, m')) :
    m'.diffLines = m.diffLines ∧ m.diffLine < m.diffLines.length
      ∧ m'.diffLine = m.diffLine + 1 ∧ m'.pyflakes = m.pyflakes ∧ m'.pep8 = m.pep8 := by
  cases hline : List.get? m.diffLines m.diffLine with
  | none =>
    unfold diff_top at h
    simp only [hline] at h
    exact Except.noConfusion h
  | some line =>
    have hd := get?_lt _ _ _ hline
    unfold diff_top at h
    simp only [hline] at h
    by_cases h3 : m.diffLine = 3
    · rw [if_pos h3] at h
      simp only [Except.ok.injEq, Prod.mk.injEq] at h
      obtain ⟨h1, h2⟩ := h
      subst h2
      exact ⟨rfl, hd, rfl, rfl, rfl⟩
    · rw [if_neg h3] at h
      simp only [Except.ok.injEq, Prod.mk.injEq] at h
      obtain ⟨h1, h2⟩ := h
      subst h2
      exact ⟨rfl, hd, rfl, rfl, rfl⟩

/-- A successful `header` pull: in bounds, raw pointer advances by exactly
one, stores untouched. -/
theorem header_delta (m : Machine) (out : Line) (m' : Machine)
    (h : header m = .ok (out, m')) :
    m'.diffLines = m.diffLines ∧ m.diffLine < m.diffLines.length
      ∧ m'.diffLine = m.diffLine + 1 ∧ m'.pyflakes = m.pyflakes ∧ m'.pep8 = m.pep8 := by
  cases hline : List.get? m.diffLines m.diffLine with
  | none =>
    unfold header at h
    simp only [hline] at h
    exact Except.noConfusion h
  | some line =>
    have hd := get?_lt _ _ _ hline
    cases hp : parseHeader line with
    | none =>
      rw [header_assert_of_parse_none m line hline hp] at h
      exact Except.noConfusion h
    | some n =>
      rw [header_eq_of_parse m line n hline hp] at h
      simp only [Except.ok.injEq, Prod.mk.injEq] at h
      obtain ⟨h1, h2⟩ := h
      subst h2
      exact ⟨rfl, hd, rfl, rfl, rfl⟩

/-- A successful `code_lines` pull: in bounds, and either the raw pointer
advances by exactly one with the total number of findings unchanged, or the
raw pointer stays and the total number of findings drops by exactly one. -/
theorem code_lines_delta (m : Machine) (out : Line) (m' : Machine)
    (h : code_lines m = .ok (out, m')) :
    m'.diffLines = m.diffLines ∧ m.diffLine < m.diffLines.length
      ∧ ((m'.diffLine = m.diffLine + 1
            ∧ storeTotal m'.pyflakes + storeTotal m'.pep8
              = storeTotal m.pyflakes + storeTotal m.pep8)
        ∨ (m'.diffLine = m.diffLine
            ∧ storeTotal m'.pyflakes + storeTotal m'.pep8 + 1
              = storeTotal m.pyflakes + storeTotal m.pep8)) := by
  cases hline : List.get? m.diffLines m.diffLine with
  | none =>
    rw [code_lines_oob m hline] at h
    exact Except.noConfusion h
  | some line =>
    have hd := get?_lt _ _ _ hline
    by_cases hr : line.take 6 = redMinus
    · rw [code_lines_removed m line hline hr] at h
      simp only [Except.ok.injEq, Prod.mk.injEq] at h
      obtain ⟨h1, h2⟩ := h
      subst h2
      exact ⟨rfl, hd, Or.inl ⟨rfl, rfl⟩⟩
    · cases hpy : storeGet m.pyflakes m.codeLine with
      | cons msg more =>
        rw [code_lines_pyflakes m line msg more hline hr hpy] at h
        simp only [Except.ok.injEq, Prod.mk.injEq] at h
        obtain ⟨h1, h2⟩ := h
        subst h2
        have ht := storeTotal_popFront m.pyflakes m.codeLine msg more hpy
        refine ⟨rfl, hd, Or.inr ⟨rfl, ?_⟩⟩
        show storeTotal (storePopFront m.pyflakes m.codeLine) + storeTotal m.pep8 + 1
          = storeTotal m.pyflakes + storeTotal m.pep8
        omega
      | nil =>
        cases hpep : storeGet m.pep8 m.codeLine with
        | cons msg more =>
          rw [code_lines_pep8 m line msg more hline hr hpy hpep] at h
          simp only [Except.ok.injEq, Prod.mk.injEq] at h
          obtain ⟨h1, h2⟩ := h
          subst h2
          have ht := storeTotal_popFront m.pep8 m.codeLine msg more hpep
          refine ⟨rfl, hd, Or.inr ⟨rfl, ?_⟩⟩
          show storeTotal m.pyflakes + storeTotal (storePopFront m.pep8 m.codeLine) + 1
            = storeTotal m.pyflakes + storeTotal m.pep8
          omega
        | nil =>
          rw [code_lines_clean m line hline hr hpy hpep] at h
          simp only [Except.ok.injEq, Prod.mk.injEq] at h
          obtain ⟨h1, h2⟩ := h
          subst h2
          exact ⟨rfl, hd, Or.inl ⟨rfl, rfl⟩⟩

/-- A successful `code_lines` pull strictly decreases the measure. -/
theorem code_lines_measure (m : Machine) (out : Line) (m' : Machine)
    (h : code_lines m = .ok (out, m')) :
    m'.diffLines = m.diffLines ∧ meas m' < meas m := by
  obtain ⟨hlines, hd, hdelta⟩ := code_lines_delta m out m' h
  refine ⟨hlines, ?_⟩
  show (m'.diffLines.length - m'.diffLine) + (storeTotal m'.pyflakes + storeTotal m'.pep8)
    < (m.diffLines.length - m.diffLine) + (storeTotal m.pyflakes + storeTotal m.pep8)
  rw [hlines]
  rcases hdelta with ⟨he, ht⟩ | ⟨he, ht⟩ <;> omega

/-- A successful `continue_msgs` pull strictly decreases the measure. -/
theorem continue_msgs_measure (m : Machine) (out : Line) (m' : Machine)
    (h : continue_msgs m = .ok (out, m')) :
    m'.diffLines = m.diffLines ∧ meas m' < meas m := by
  cases hpy : storeGet m.pyflakes m.codeLine with
  | cons msg more =>
    rw [continue_msgs_pyflakes m msg more hpy] at h
    simp only [Except.ok.injEq, Prod.mk.injEq] at h
    obtain ⟨h1, h2⟩ := h
    subst h2
    have ht := storeTotal_popFront m.pyflakes m.codeLine msg more hpy
    refine ⟨rfl, ?_⟩
    show (m.diffLines.length - m.diffLine)
        + (storeTotal (storePopFront m.pyflakes m.codeLine) + storeTotal m.pep8)
      < (m.diffLines.length - m.diffLine) + (storeTotal m.pyflakes + storeTotal m.pep8)
    omega
  | nil =>
    cases hpep : storeGet m.pep8 m.codeLine with
    | cons msg more =>
      rw [continue_msgs_pep8 m msg more hpy hpep] at h
      simp only [Except.ok.injEq, Prod.mk.injEq] at h
      obtain ⟨h1, h2⟩ := h
      subst h2
      have ht := storeTotal_popFront m.pep8 m.codeLine msg more hpep
      refine ⟨rfl, ?_⟩
      show (m.diffLines.length - m.diffLine)
          + (storeTotal m.pyflakes + storeTotal (storePopFront m.pep8 m.codeLine))
        < (m.diffLines.length - m.diffLine) + (storeTotal m.pyflakes + storeTotal m.pep8)
      omega
    | nil =>
      rw [continue_msgs_drain m hpy hpep] at h
      obtain ⟨hlines, hm⟩ := code_lines_measure _ _ _ h
      constructor
      · exact hlines
      · have hle : meas ({ m with
            diffLine := m.diffLine + 1, codeLine := m.codeLine + 1,
            state := .codeLines } : Machine) ≤ meas m := by
          show (m.diffLines.length - (m.diffLine + 1))
              + (storeTotal m.pyflakes + storeTotal m.pep8)
            ≤ (m.diffLines.length - m.diffLine) + (storeTotal m.pyflakes + storeTotal m.pep8)
          omega
        omega

/-- Every successful pull of the state machine strictly decreases the
measure and leaves the line list unchanged. -/
theorem step_measure (m : Machine) (out : Line) (m' : Machine)
    (h : step m = .ok (out, m')) :
    m'.diffLines = m.diffLines ∧ meas m' < meas m := by
  cases hstate : m.state
  case diffTop =>
    rw [step_diffTop m hstate] at h
    obtain ⟨hl, hd, he, hpy, hpep⟩ := diff_top_delta m out m' h
    refine ⟨hl, ?_⟩
    show (m'.diffLines.length - m'.diffLine) + (storeTotal m'.pyflakes + storeTotal m'.pep8)
      < (m.diffLines.length - m.diffLine) + (storeTotal m.pyflakes + storeTotal m.pep8)
    rw [hl, he, hpy, hpep]
    omega
  case header =>
    rw [step_header m hstate] at h
    obtain ⟨hl, hd, he, hpy, hpep⟩ := header_delta m out m' h
    refine ⟨hl, ?_⟩
    show (m'.diffLines.length - m'.diffLine) + (storeTotal m'.pyflakes + storeTotal m'.pep8)
      < (m.diffLines.length - m.diffLine) + (storeTotal m.pyflakes + storeTotal m.pep8)
    rw [hl, he, hpy, hpep]
    omega
  case codeLines =>
    rw [step_codeLines m hstate] at h
    exact code_lines_measure m out m' h
  case continueMsgs =>
    rw [step_continueMsgs m hstate] at h
    exact continue_msgs_measure m out m' h

end DiffLint

namespace DiffLint

/-- `code_lines` never produces the fuel marker. -/
theorem code_lines_no_fuelOut (m : Machine) (e : Err) (h : code_lines m = .error e) :
    e ≠ .fuelOut := by
  cases hline : List.get? m.diffLines m.diffLine with
  | none =>
    rw [code_lines_oob m hline] at h
    injection h with h1
    rw [← h1]
    decide
  | some line =>
    by_cases hr : line.take 6 = redMinus
    · rw [code_lines_removed m line hline hr] at h
      exact Except.noConfusion h
    · cases hpy : storeGet m.pyflakes m.codeLine with
      | cons msg more =>
        rw [code_lines_pyflakes m line msg more hline hr hpy] at h
        exact Except.noConfusion h
      | nil =>
        cases hpep : storeGet m.pep8 m.codeLine with
        | cons msg more =>
          rw [code_lines_pep8 m line msg more hline hr hpy hpep] at h
          exact Except.noConfusion h
        | nil =>
          rw [code_lines_clean m line hline hr hpy hpep] at h
          exact Except.noConfusion h

/-- `continue_msgs` never produces the fuel marker. -/
theorem continue_msgs_no_fuelOut (m : Machine) (e : Err) (h : continue_msgs m = .error e) :
    e ≠ .fuelOut := by
  cases hpy : storeGet m.pyflakes m.codeLine with
  | cons msg more =>
    rw [continue_msgs_pyflakes m msg more hpy] at h
    exact Except.noConfusion h
  | nil =>
    cases hpep : storeGet m.pep8 m.codeLine with
    | cons msg more =>
      rw [continue_msgs_pep8 m msg more hpy hpep] at h
      exact Except.noConfusion h
    | nil =>
      rw [continue_msgs_drain m hpy hpep] at h
      exact code_lines_no_fuelOut _ e h

/-- No pull of the state machine produces the fuel marker: it is an artifact
of the fueled model only. -/
theorem step_no_fuelOut (m : Machine) (e : Err) (h : step m = .error e) :
    e ≠ .fuelOut := by
  cases hstate : m.state
  case diffTop =>
    rw [step_diffTop m hstate] at h
    cases hline : List.get? m.diffLines m.diffLine with
    | none =>
      unfold diff_top at h
      simp only [hline] at h
      injection h with h1
      rw [← h1]
      decide
    | some line =>
      unfold diff_top at h
      simp only [hline] at h
      by_cases h3 : m.diffLine = 3
      · rw [if_pos h3] at h
        exact Except.noConfusion h
      · rw [if_neg h3] at h
        exact Except.noConfusion h
  case header =>
    rw [step_header m hstate] at h
    cases hline : List.get? m.diffLines m.diffLine with
    | none =>
      unfold header at h
      simp only [hline] at h
      injection h with h1
      rw [← h1]
      decide
    | some line =>
      cases hp : parseHeader line with
      | none =>
        rw [header_assert_of_parse_none m line hline hp] at h
        injection h with h1
        rw [← h1]
        decide
      | some n =>
        rw [header_eq_of_parse m line n hline hp] at h
        exact Except.noConfusion h
  case codeLines =>
    rw [step_codeLines m hstate] at h
    exact code_lines_no_fuelOut m e h
  case continueMsgs =>
    rw [step_continueMsgs m hstate] at h
    exact continue_msgs_no_fuelOut m e h

/-- With fuel at least the measure, the fueled loop never runs out of fuel:
iteration terminates by exhaustion or a genuine error of the program. -/
theorem run_no_fuelOut : ∀ (fuel : Nat) (m : Machine), meas m ≤ fuel →
    run fuel m ≠ .error .fuelOut := by
  intro fuel
  induction fuel with
  | zero =>
    intro m hle
    by_cases hd : m.diffLine < m.diffLines.length
    · exfalso
      have h1 : 1 ≤ meas m := by
        show 1 ≤ (m.diffLines.length - m.diffLine) + (storeTotal m.pyflakes + storeTotal m.pep8)
        omega
      omega
    · rw [run_done 0 m hd]
      exact fun hcon => Except.noConfusion hcon
  | succ f ih =>
    intro m hle
    by_cases hd : m.diffLine < m.diffLines.length
    · cases hs : step m with
      | error e =>
        have hrun : run (f + 1) m = .error e := by
          simp [run, hd, hs]
        rw [hrun]
        intro hcon
        injection hcon with h1
        exact step_no_fuelOut m e hs h1
      | ok p =>
        obtain ⟨out, m'⟩ := p
        rw [run_succ_of_step f m m' out hd hs]
        obtain ⟨hlines, hm⟩ := step_measure m out m' hs
        have ihm := ih m' (by omega)
        cases hr : run f m' with
        | error e =>
          rw [hr] at ihm
          simpa [Except.map] using ihm
        | ok p2 =>
          simp [Except.map]
    · rw [run_done _ m hd]
      exact fun hcon => Except.noConfusion hcon

/-- The number of produced lines is bounded by the measure. -/
theorem run_length_le : ∀ (fuel : Nat) (m : Machine) (outs : List Line) (mf : Machine),
    run fuel m = .ok (outs, mf) → outs.length ≤ meas m := by
  intro fuel
  induction fuel with
  | zero =>
    intro m outs mf h
    by_cases hd : m.diffLine < m.diffLines.length
    · simp [run, hd] at h
    · rw [run_done 0 m hd] at h
      simp only [Except.ok.injEq, Prod.mk.injEq] at h
      obtain ⟨h1, h2⟩ := h
      rw [← h1]
      exact Nat.zero_le _
  | succ f ih =>
    intro m outs mf h
    by_cases hd : m.diffLine < m.diffLines.length
    · cases hs : step m with
      | error e =>
        have hrun : run (f + 1) m = .error e := by
          simp [run, hd, hs]
        rw [hrun] at h
        exact Except.noConfusion h
      | ok p =>
        obtain ⟨out, m'⟩ := p
        rw [run_succ_of_step f m m' out hd hs] at h
        obtain ⟨hlines, hm⟩ := step_measure m out m' hs
        cases hr : run f m' with
        | error e =>
          rw [hr] at h
          exact Except.noConfusion h
        | ok p2 =>
          obtain ⟨outs', mf'⟩ := p2
          rw [hr] at h
          simp only [Except.map, Except.ok.injEq, Prod.mk.injEq] at h
          obtain ⟨h1, h2⟩ := h
          have := ih m' outs' mf' hr
          rw [← h1]
          simp only [List.length_cons]
          omega
    · rw [run_done _ m hd] at h
      simp only [Except.ok.injEq, Prod.mk.injEq] at h
      obtain ⟨h1, h2⟩ := h
      rw [← h1]
      exact Nat.zero_le _

end DiffLint

namespace DiffLint

/-- Claim C10: every successful invocation of a state handler either
advances the raw-line pointer by exactly 1 with the total number of stored
findings unchanged, or strictly decreases that total by exactly 1 (the
draining invocation of `continue_msgs` advances the pointer by exactly 1
itself and then delegates the same pull to a `code_lines` invocation); hence,
for every finite diff line sequence and finite Finding Stores, iteration
terminates (the fueled loop with fuel equal to the measure never exhausts its
fuel) and produces at most `(number of diff lines) + (total findings)` output
lines. -/
theorem c10_termination :
    (∀ (m : Machine) (out : Line) (m' : Machine), diff_top m = .ok (out, m') →
        m'.diffLine = m.diffLine + 1 ∧ m'.pyflakes = m.pyflakes ∧ m'.pep8 = m.pep8)
    ∧ (∀ (m : Machine) (out : Line) (m' : Machine), header m = .ok (out, m') →
        m'.diffLine = m.diffLine + 1 ∧ m'.pyflakes = m.pyflakes ∧ m'.pep8 = m.pep8)
    ∧ (∀ (m : Machine) (out : Line) (m' : Machine), code_lines m = .ok (out, m') →
        (m'.diffLine = m.diffLine + 1
            ∧ storeTotal m'.pyflakes + storeTotal m'.pep8
              = storeTotal m.pyflakes + storeTotal m.pep8)
          ∨ (m'.diffLine = m.diffLine
            ∧ storeTotal m'.pyflakes + storeTotal m'.pep8 + 1
              = storeTotal m.pyflakes + storeTotal m.pep8))
    ∧ (∀ (m : Machine) (out : Line) (m' : Machine), continue_msgs m = .ok (out, m') →
        (storeGet m.pyflakes m.codeLine ≠ [] ∨ storeGet m.pep8 m.codeLine ≠ []) →
        m'.diffLine = m.diffLine
          ∧ storeTotal m'.pyflakes + storeTotal m'.pep8 + 1
            = storeTotal m.pyflakes + storeTotal m.pep8)
    ∧ (∀ m : Machine, storeGet m.pyflakes m.codeLine = [] → storeGet m.pep8 m.codeLine = [] →
        continue_msgs m = code_lines
          { m with
            diffLine := m.diffLine + 1, codeLine := m.codeLine + 1, state := .codeLines })
    ∧ (∀ (fuel : Nat) (m : Machine), meas m ≤ fuel → run fuel m ≠ .error .fuelOut)
    ∧ (∀ (fuel : Nat) (m : Machine) (outs : List Line) (mf : Machine),
        run fuel m = .ok (outs, mf) →
        outs.length ≤ m.diffLines.length + (storeTotal m.pyflakes + storeTotal m.pep8)) := by
  refine ⟨?_, ?_, ?_, ?_, ?_, run_no_fuelOut, ?_⟩
  · intro m out m' h
    obtain ⟨hl, hd, he, hpy, hpep⟩ := diff_top_delta m out m' h
    exact ⟨he, hpy, hpep⟩
  · intro m out m' h
    obtain ⟨hl, hd, he, hpy, hpep⟩ := header_delta m out m' h
    exact ⟨he, hpy, hpep⟩
  · intro m out m' h
    obtain ⟨hl, hd, hdelta⟩ := code_lines_delta m out m' h
    exact hdelta
  · intro m out m' h hne
    cases hpy : storeGet m.pyflakes m.codeLine with
    | cons msg more =>
      rw [continue_msgs_pyflakes m msg more hpy] at h
      simp only [Except.ok.injEq, Prod.mk.injEq] at h
      obtain ⟨h1, h2⟩ := h
      subst h2
      have ht := storeTotal_popFront m.pyflakes m.codeLine msg more hpy
      refine ⟨rfl, ?_⟩
      show storeTotal (storePopFront m.pyflakes m.codeLine) + storeTotal m.pep8 + 1
        = storeTotal m.pyflakes + storeTotal m.pep8
      omega
    | nil =>
      cases hpep : storeGet m.pep8 m.codeLine with
      | cons msg more =>
        rw [continue_msgs_pep8 m msg more hpy hpep] at h
        simp only [Except.ok.injEq, Prod.mk.injEq] at h
        obtain ⟨h1, h2⟩ := h
        subst h2
        have ht := storeTotal_popFront m.pep8 m.codeLine msg more hpep
        refine ⟨rfl, ?_⟩
        show storeTotal m.pyflakes + storeTotal (storePopFront m.pep8 m.codeLine) + 1
          = storeTotal m.pyflakes + storeTotal m.pep8
        omega
      | nil =>
        rcases hne with hne | hne
        · exact absurd hpy hne
        · exact absurd hpep hne
  · intro m hpy hpep
    exact continue_msgs_drain m hpy hpep
  · intro fuel m outs mf h
    have hlen := run_length_le fuel m outs mf h
    have hmeas : meas m
        = (m.diffLines.length - m.diffLine) + (storeTotal m.pyflakes + storeTotal m.pep8) := rfl
    omega

/-- Witness instantiating `c10_termination` at concrete machines and fuels. -/
theorem c10_termination_witness :
    ((⟨["t".toList], 1, 0, [], [], .diffTop⟩ : Machine).diffLine = 0 + 1
      ∧ (⟨["t".toList], 1, 0, [], [], .diffTop⟩ : Machine).pyflakes = []
      ∧ (⟨["t".toList], 1, 0, [], [], .diffTop⟩ : Machine).pep8 = [])
    ∧ (((⟨["u".toList, "v".toList], 1, 9, [], [], .codeLines⟩ : Machine).diffLine = 0 + 1
        ∧ storeTotal (⟨["u".toList, "v".toList], 1, 9, [], [], .codeLines⟩ : Machine).pyflakes
            + storeTotal (⟨["u".toList, "v".toList], 1, 9, [], [], .codeLines⟩ : Machine).pep8
          = storeTotal ([] : Store) + storeTotal ([] : Store))
      ∨ ((⟨["u".toList, "v".toList], 1, 9, [], [], .codeLines⟩ : Machine).diffLine = 0
        ∧ storeTotal (⟨["u".toList, "v".toList], 1, 9, [], [], .codeLines⟩ : Machine).pyflakes
            + storeTotal (⟨["u".toList, "v".toList], 1, 9, [], [], .codeLines⟩ : Machine).pep8 + 1
          = storeTotal ([] : Store) + storeTotal ([] : Store)))
    ∧ run 3 (⟨["u".toList, "v".toList], 0, 8, [], [], .codeLines⟩ : Machine)
        ≠ .error .fuelOut :=
  ⟨c10_termination.1 (⟨["t".toList], 0, 0, [], [], .diffTop⟩ : Machine) ("t".toList)
      (⟨["t".toList], 1, 0, [], [], .diffTop⟩ : Machine) rfl,
   c10_termination.2.2.1 (⟨["u".toList, "v".toList], 0, 8, [], [], .codeLines⟩ : Machine)
      ("u".toList) (⟨["u".toList, "v".toList], 1, 9, [], [], .codeLines⟩ : Machine) rfl,
   c10_termination.2.2.2.2.2.1 3 (⟨["u".toList, "v".toList], 0, 8, [], [], .codeLines⟩ : Machine)
      (by decide)⟩

end DiffLint
